import Mathlib

/-!
Verification of `train_gpt2.py` (GPT-2 124M training script).

This file gives a shallow embedding, in Lean 4, of the parts of
`train_gpt2.py` that the specification talks about, and proves (or refutes)
the specified properties against that embedding:

* the learning-rate schedule `get_lr`;
* the token shard loader `DataLoaderLite` (`reset` / `next_batch`);
* the gradient-accumulation setup and micro-step loop;
* the parameter registration table of `GPT.__init__` (weight tying) and the
  optimizer grouping of `GPT.configure_optimizers`;
* the module table consumed by `GPT._init_weights`;
* the forward numerics: `CausalSelfAttention.forward`, `MLP.forward`,
  `Block.forward` and `GPT.forward` (modelled over `ℝ`, the usual exact
  idealization of the script's floating-point arithmetic);
* the weight-import copy loop of `GPT.from_pretrained`;
* the periodic sampling/reporting block of the training loop.

Tensors are modelled as functions out of `Fin`-indexed shapes, in-place
tensor mutation as explicit state passing, Python `assert` failures as
`Except.error` results, and the PyTorch RNG draws of the initializer as
symbolic distribution descriptors.
-/

namespace TrainGPT2

/-! ## Learning-rate schedule (`get_lr` and its constants) -/

/-- Constant `max_lr = 6e-4` from the training script. -/
noncomputable def max_lr : ℝ := 6e-4

/-- Constant `min_lr = max_lr * 0.1`. -/
noncomputable def min_lr : ℝ := max_lr * 0.1

/-- Constant `warmup_steps = 715`. -/
def warmup_steps : ℕ := 715

/-- Constant `max_steps = 19073`. -/
def max_steps : ℕ := 19073

/-- Shallow embedding of `get_lr(it)`: linear warmup for `it < warmup_steps`,
`min_lr` for `it > max_steps`, cosine decay in between.  Python's float
arithmetic is idealized over `ℝ`; `(it - warmup_steps) / (max_steps -
warmup_steps)` is Python true division of ints, embedded as real division of
the casts. -/
noncomputable def get_lr (it : ℕ) : ℝ :=
  if it < warmup_steps then max_lr * ((it : ℝ) + 1) / (warmup_steps : ℝ)
  else if max_steps < it then min_lr
  else
    let decayRatio : ℝ := ((it : ℝ) - (warmup_steps : ℝ)) / ((max_steps : ℝ) - (warmup_steps : ℝ))
    let coeff : ℝ := 0.5 * (1 + Real.cos (Real.pi * decayRatio))
    min_lr + coeff * (max_lr - min_lr)

/-! ## Token shard loader (`DataLoaderLite`)

A shard file is modelled by its contents, a list of token ids (`ℤ`, as
`load_tokens` widens the stored `uint16` tokens to a signed integer dtype).
The mutable loader state (`current_shard`, `tokens`, `current_position`) is
carried alongside the constructor arguments in one record. -/

/-- Loader state: constructor arguments `B`, `T`, `process_rank`,
`num_processes` and the discovered shard list, plus the mutable fields
set by `reset` and `next_batch`. -/
structure DState where
  B : ℕ
  T : ℕ
  process_rank : ℕ
  num_processes : ℕ
  shards : List (List ℤ)
  current_shard : ℕ
  tokens : List ℤ
  current_position : ℕ
deriving DecidableEq

/-- Method `reset()`: back to shard 0, load it, cursor at `B * T * process_rank`. -/
def DState.reset (s : DState) : DState :=
  { s with
    current_shard := 0
    tokens := s.shards.getD 0 []
    current_position := s.B * s.T * s.process_rank }

/-- Reshape a flat token list into `B` rows of `T` (the semantics of
`tensor.view(B, T)` on a tensor holding exactly `B*T` elements). -/
def reshapeBT (B T : ℕ) (l : List ℤ) : List (List ℤ) :=
  match B with
  | 0 => []
  | b + 1 => l.take T :: reshapeBT b T (l.drop T)

/-- Semantics of `tensor.view(B, T)`: succeeds exactly when the tensor holds `B*T`
elements, otherwise raises (PyTorch `RuntimeError`). -/
def viewBT (B T : ℕ) (l : List ℤ) : Except String (List (List ℤ)) :=
  if l.length = B * T then .ok (reshapeBT B T l)
  else .error ("RuntimeError: shape invalid for input of size")

/-- Shallow embedding of `DataLoaderLite.next_batch`:
`buf = tokens[pos : pos + B*T+1]`; `x = buf[:-1].view(B,T)`;
`y = buf[1:].view(B,T)`; cursor advances by `B*T*num_processes`; if the
following read would overrun the loaded shard, advance to the next shard
(wrapping with `%`), load it, and reset the cursor to `B*T*process_rank`.
A failing `view` propagates as an error, before any state change, exactly
as the Python exception would. -/
def DState.next_batch (s : DState) :
    Except String (List (List ℤ) × List (List ℤ) × DState) := do
  let B := s.B
  let T := s.T
  let buf := (s.tokens.drop s.current_position).take (B * T + 1)
  let x ← viewBT B T buf.dropLast
  let y ← viewBT B T (buf.drop 1)
  let pos1 := s.current_position + B * T * s.num_processes
  if pos1 + (B * T * s.num_processes + 1) > s.tokens.length then
    let cs := (s.current_shard + 1) % s.shards.length
    pure (x, y,
      { s with
        current_shard := cs
        tokens := s.shards.getD cs []
        current_position := B * T * s.process_rank })
  else
    pure (x, y, { s with current_position := pos1 })

/-- Run `n` successive `next_batch` calls, threading the state. -/
def DState.iterate (s : DState) : ℕ → Except String DState
  | 0 => .ok s
  | n + 1 => do
    let s1 ← s.iterate n
    let r ← s1.next_batch
    pure r.2.2

/-- A loader whose single shard holds fewer than `B*T*num_processes + 1`
tokens: `B = T = num_processes = 1`, one shard of one token. -/
def smallState : DState :=
  { B := 1, T := 1, process_rank := 0, num_processes := 1
    shards := [[0]], current_shard := 0, tokens := [], current_position := 0 }

/-- A loader state about to roll over: `B = T = num_processes = 1`, two
shards of two tokens each, the first one loaded, cursor at 0 (its shard
holds `B*T*num_processes + k` tokens with `k = 1 < B*T + 1`). -/
def rollState : DState :=
  { B := 1, T := 1, process_rank := 0, num_processes := 1
    shards := [[3, 4], [8, 9]], current_shard := 0, tokens := [3, 4], current_position := 0 }

/-! ## Gradient accumulation (`grad_accum_steps` and the micro-step loop) -/

/-- Constant `total_batch_size = 524288` tokens. -/
def total_batch_size : ℕ := 524288

/-- Micro batch size `B = 64`. -/
def B : ℕ := 64

/-- Sequence length `T = 1024`. -/
def T : ℕ := 1024

/-- The `assert total_batch_size % (B * T * ddp_world_size) == 0` guard
followed by `grad_accum_steps = total_batch_size // (B * T * ddp_world_size)`;
a failing `assert` aborts the run. -/
def gradAccumStepsE (world_size : ℕ) : Except String ℕ :=
  if total_batch_size % (B * T * world_size) = 0 then
    .ok (total_batch_size / (B * T * world_size))
  else
    .error ("AssertionError: make sure total_batch_size is divisible by B * T * ddp_world_size")

/-- One accumulation window: `loss_accum` after folding
`loss_accum += (loss / grad_accum_steps)` over
`micro_step in range(grad_accum_steps)`, where `losses i` is the raw
micro-batch loss of micro-step `i`. -/
noncomputable def microLossAccum (gas : ℕ) (losses : ℕ → ℝ) : ℝ :=
  (List.range gas).foldl (fun a i => a + losses i / (gas : ℝ)) 0

/-- Flag `model.require_backward_grad_sync = (micro_step == grad_accum_steps - 1)`:
the DDP gradient all-reduce is enabled only on the final micro-step. -/
def syncFlag (micro_step gas : ℕ) : Bool := micro_step == gas - 1

/-! ## Weight import (`GPT.from_pretrained`)

State dicts are association lists from parameter name to a tensor, a tensor
being its shape together with an abstract content handle (the import claim
is about which checks run before which copies, not about element values).
In-place `copy_` is an update of the association list; an `assert` failure
or `KeyError` stops the loop, returning the association list as already
mutated — exactly the observable state of the Python objects at the point
the exception is raised. -/

/-- A tensor for the import model: shape plus an opaque content handle. -/
structure HTensor where
  shape : List ℕ
  data : ℕ
deriving DecidableEq

/-- Dictionary lookup `sd[k]` (as an `Option`; `none` models `KeyError`). -/
def sdFind (sd : List (String × HTensor)) (k : String) : Option HTensor :=
  (sd.find? (fun e => e.1 = k)).map (fun e => e.2)

/-- In-place `sd[k].copy_(src)`: overwrite the content handle stored under
`k`, keeping the target's shape. -/
def sdSet (sd : List (String × HTensor)) (k : String) (v : ℕ) :
    List (String × HTensor) :=
  sd.map (fun e => if e.1 = k then (e.1, ⟨e.2.shape, v⟩) else e)

/-- The suffix list `transposed` of `from_pretrained`. -/
def transposedSuffixes : List String :=
  ["attn.c_attn.weight", "attn.c_proj.weight", "mlp.c_fc.weight", "mlp.c_proj.weight"]

/-- Predicate `any(k.endswith(w) for w in transposed)`. -/
def endsWithAny (k : String) (ws : List String) : Bool :=
  ws.any (fun w => k.endsWith w)

/-- The copy loop of `from_pretrained`: for each key of `sd_hf`, look the key
up in both dicts, check the (possibly reversed) shape, and copy.  The first
failure stops the loop; the returned dict retains every copy already made. -/
def copyLoop (sdhf : List (String × HTensor)) :
    List String → List (String × HTensor) → List (String × HTensor) × Option String
  | [], sd => (sd, none)
  | k :: rest, sd =>
    match sdFind sdhf k with
    | none => (sd, some ("KeyError in sd_hf: " ++ k))
    | some src =>
      match sdFind sd k with
      | none => (sd, some ("KeyError: " ++ k))
      | some dst =>
        if endsWithAny k transposedSuffixes then
          if src.shape.reverse = dst.shape then copyLoop sdhf rest (sdSet sd k src.data)
          else (sd, some ("AssertionError: transposed shape mismatch at " ++ k))
        else
          if src.shape = dst.shape then copyLoop sdhf rest (sdSet sd k src.data)
          else (sd, some ("AssertionError: shape mismatch at " ++ k))

/-- Body of `from_pretrained`, from the key-count `assert` on: check
`len(sd_keys_hf) == len(sd_keys)`, then run the per-key copy loop over the
keys of `sd_hf` (both dicts already filtered of the `attn.bias` buffers). -/
def fromPretrainedCopy (sd sdhf : List (String × HTensor)) :
    List (String × HTensor) × Option String :=
  if sdhf.length = sd.length then copyLoop sdhf (sdhf.map (fun e => e.1)) sd
  else (sd, some ("AssertionError: mismatched keys"))

/-- Target state dict for the partial-copy scenario. -/
def sdTargetC : List (String × HTensor) := [("a", ⟨[2], 0⟩), ("b", ⟨[2], 0⟩)]

/-- Source state dict for the partial-copy scenario: key `a` matches, key
`b` has an incompatible shape. -/
def sdSourceC : List (String × HTensor) := [("a", ⟨[2], 7⟩), ("b", ⟨[3], 9⟩)]

/-! ## Periodic sampling block of the training loop

The autoregressive loop grows `xgen` by one sampled token per iteration
until it reaches `max_length`; the chosen token is abstracted as a function
`pick` of the current row (standing for the top-k multinomial draw).  The
reporting loop then decodes `x[i, :max_length]` — note: `x`, the leftover
micro-batch variable, not `xgen`. -/

/-- The `while xgen.size(1) < max_length` generation loop for one row,
fuel-indexed (the loop adds one token per iteration, so `max_length` fuel
always suffices). -/
def generateLoop (pick : List ℕ → ℕ) (max_length : ℕ) : ℕ → List ℕ → List ℕ
  | 0, row => row
  | fuel + 1, row =>
    if row.length < max_length then
      generateLoop pick max_length fuel (row ++ [pick row])
    else row

/-- The freshly generated continuations of one sampling event: each of the
`num_return_sequences` rows starts from the prompt and is grown to
`max_length` by the autoregressive loop. -/
def samplingGenerate (pick : List ℕ → ℕ) (num_return_sequences max_length : ℕ)
    (prompt : List ℕ) : List (List ℕ) :=
  (List.range num_return_sequences).map (fun _ => generateLoop pick max_length max_length prompt)

/-- What the reporting loop actually decodes and prints:
`tokens = x[i, :max_length].tolist()` for `i in range(num_return_sequences)`,
where `x` is the leftover training/validation micro-batch tensor. -/
def samplingReport (xLeftover : List (List ℕ)) (num_return_sequences max_length : ℕ) :
    List (List ℕ) :=
  (List.range num_return_sequences).map (fun i => (xLeftover.getD i []).take max_length)

/-! ## Parameter registration and weight tying (`GPT.__init__`,
`GPT.configure_optimizers`)

The modules declared by `GPT.__init__` are identified by structured names
(one constructor per module site, indexed by the block number), so that
name (in)equalities are by constructor and no string arithmetic is needed.
A registered parameter is a slot: its name, the identity (`tid`) of the
tensor object it references, and that tensor's `dim()`.  Fresh construction
gives every parameter a distinct `tid`; the weight-tying assignment
`self.transformer.wte.weight = self.lm_head.weight` re-points the `wte`
slot at the `lm_head` tensor.  Tensor contents live in a separate heap
indexed by `tid`; `_init_weights` and the optimizer touch only the heap,
never the slot table, so the slot-level facts proved here are preserved by
them. -/

/-- Structured module names of `GPT.__init__` (block-indexed where the
module lives inside `Block` number `i`). -/
inductive MName where
  | wte
  | wpe
  | ln_f
  | lm_head
  | ln_1 (i : ℕ)
  | c_attn (i : ℕ)
  | attn_c_proj (i : ℕ)
  | ln_2 (i : ℕ)
  | c_fc (i : ℕ)
  | mlp_c_proj (i : ℕ)
deriving DecidableEq

/-- Which attribute of the module a parameter slot is. -/
inductive PParam where
  | weight
  | bias
deriving DecidableEq

/-- A registered parameter: name, referenced tensor identity, tensor rank. -/
structure PSlot where
  name : MName × PParam
  tid : ℕ
  rank : ℕ
deriving DecidableEq

/-- The twelve parameters a `Block` registers, in registration order
(`ln_1`, `attn.c_attn`, `attn.c_proj`, `ln_2`, `mlp.c_fc`, `mlp.c_proj`),
with fresh tensor ids starting at `2 + 12*i`. -/
def blockSlots (i : ℕ) : List PSlot :=
  [⟨(.ln_1 i, .weight), 2 + 12 * i, 1⟩, ⟨(.ln_1 i, .bias), 3 + 12 * i, 1⟩,
   ⟨(.c_attn i, .weight), 4 + 12 * i, 2⟩, ⟨(.c_attn i, .bias), 5 + 12 * i, 1⟩,
   ⟨(.attn_c_proj i, .weight), 6 + 12 * i, 2⟩, ⟨(.attn_c_proj i, .bias), 7 + 12 * i, 1⟩,
   ⟨(.ln_2 i, .weight), 8 + 12 * i, 1⟩, ⟨(.ln_2 i, .bias), 9 + 12 * i, 1⟩,
   ⟨(.c_fc i, .weight), 10 + 12 * i, 2⟩, ⟨(.c_fc i, .bias), 11 + 12 * i, 1⟩,
   ⟨(.mlp_c_proj i, .weight), 12 + 12 * i, 2⟩, ⟨(.mlp_c_proj i, .bias), 13 + 12 * i, 1⟩]

/-- The slot table right after the module declarations of `GPT.__init__`,
before the weight-tying assignment: `wte.weight` (embedding, rank 2),
`wpe.weight` (embedding, rank 2), the `n_layer` blocks, `ln_f`, and
`lm_head.weight` (a `Linear` with `bias=False`), every slot holding a
fresh tensor id. -/
def gptSlotsPre (L : ℕ) : List PSlot :=
  ⟨(.wte, .weight), 0, 2⟩ :: ⟨(.wpe, .weight), 1, 2⟩ ::
    ((List.range L).flatMap blockSlots ++
      [⟨(.ln_f, .weight), 2 + 12 * L, 1⟩, ⟨(.ln_f, .bias), 3 + 12 * L, 1⟩,
       ⟨(.lm_head, .weight), 4 + 12 * L, 2⟩])

/-- The tensor id of `lm_head.weight` in the fresh table. -/
def lmTid (L : ℕ) : ℕ := 4 + 12 * L

/-- The weight-tying assignment
`self.transformer.wte.weight = self.lm_head.weight`: the `wte.weight` slot
is re-pointed at the `lm_head.weight` tensor; every other slot is
untouched. -/
def tieWeights (L : ℕ) (slots : List PSlot) : List PSlot :=
  slots.map (fun s => if s.name = (.wte, .weight) then { s with tid := lmTid L } else s)

/-- The slot table after `GPT.__init__` finishes. -/
def gptSlots (L : ℕ) : List PSlot := tieWeights L (gptSlotsPre L)

/-- PyTorch `named_parameters()` deduplication: PyTorch yields each tensor object
once, keeping the first name it was registered under. -/
def dedupByTid : List PSlot → List ℕ → List PSlot
  | [], _ => []
  | s :: rest, seen =>
    if s.tid ∈ seen then dedupByTid rest seen
    else s :: dedupByTid rest (s.tid :: seen)

/-- List `self.named_parameters()` as consumed by `configure_optimizers`. -/
def namedParameters (L : ℕ) : List PSlot := dedupByTid (gptSlots L) []

/-- Group `decay_params = [p for p in params if p.dim() >= 2]`. -/
def decay_params (L : ℕ) : List PSlot :=
  (namedParameters L).filter (fun s => 2 ≤ s.rank)

/-- Group `nodecay_params = [p for p in params if p.dim() < 2]`. -/
def nodecay_params (L : ℕ) : List PSlot :=
  (namedParameters L).filter (fun s => s.rank < 2)

/-- Tensor heap: content of the tensor object `tid` at entry `(i, j)`. -/
def Heap : Type := ℕ → ℕ → ℕ → ℝ

/-- Write value `v` into entry `(i, j)` of tensor object `t`. -/
noncomputable def writeEntry (h : Heap) (t i j : ℕ) (v : ℝ) : Heap :=
  fun t' i' j' => if t' = t ∧ i' = i ∧ j' = j then v else h t' i' j'

/-- The tensor id a parameter name resolves to in a slot table (0 if the
name is absent; all the names used below are present). -/
def ptid (slots : List PSlot) (nm : MName × PParam) : ℕ :=
  ((slots.find? (fun s => s.name = nm)).map PSlot.tid).getD 0

/-- Read entry `(i, j)` of the tensor a parameter name resolves to. -/
noncomputable def readParam (slots : List PSlot) (h : Heap) (nm : MName × PParam)
    (i j : ℕ) : ℝ :=
  h (ptid slots nm) i j

/-! ## Module table and `GPT._init_weights`

`self.apply(self._init_weights)` visits every module; `_init_weights`
draws `nn.Linear` weights from `normal(0, 0.02)` — scaled by
`(2 * n_layer) ** -0.5` when the module carries the `NANOGPT_SCALE_INIT`
flag — zeroes `nn.Linear` biases, draws `nn.Embedding` weights from
`normal(0, 0.02)`, and leaves every other module (`LayerNorm`) alone.
The random draws are modelled by symbolic distribution descriptors. -/

/-- Module kinds relevant to `_init_weights`: `nn.Linear` (with its
`NANOGPT_SCALE_INIT` flag and whether it has a bias), `nn.Embedding`,
`nn.LayerNorm`. -/
inductive MKind where
  | linear (scaleInit : Bool) (hasBias : Bool)
  | embedding
  | layerNorm
deriving DecidableEq

/-- A module declaration: its structured name and kind. -/
structure MDecl where
  name : MName
  kind : MKind
deriving DecidableEq

/-- The six leaf modules a `Block` declares, with the flags the source sets:
`NANOGPT_SCALE_INIT` is set on `attn.c_proj` and `mlp.c_proj` only; the
three `Linear`s inside a block keep the default `bias=True`. -/
def blockModules (i : ℕ) : List MDecl :=
  [⟨.ln_1 i, .layerNorm⟩,
   ⟨.c_attn i, .linear false true⟩,
   ⟨.attn_c_proj i, .linear true true⟩,
   ⟨.ln_2 i, .layerNorm⟩,
   ⟨.c_fc i, .linear false true⟩,
   ⟨.mlp_c_proj i, .linear true true⟩]

/-- All leaf modules of `GPT(config)` with `n_layer = L`:
the embeddings, the blocks, `ln_f`, and `lm_head` (`bias=False`, no
scale-init flag). -/
def gptModules (L : ℕ) : List MDecl :=
  ⟨.wte, .embedding⟩ :: ⟨.wpe, .embedding⟩ ::
    ((List.range L).flatMap blockModules ++
      [⟨.ln_f, .layerNorm⟩, ⟨.lm_head, .linear false false⟩])

/-- A symbolic initialization: a draw from `normal(mean, std)`, or zeros. -/
inductive InitSpec where
  | normal (mean std : ℝ)
  | zeros

/-- What `_init_weights` does to one module of a model with `n_layer = L`:
the initialization applied to its weight and to its bias (`none` = left
untouched). -/
noncomputable def initWeights (L : ℕ) : MKind → Option InitSpec × Option InitSpec
  | .linear scaleInit hasBias =>
    (some (.normal 0 (if scaleInit then 0.02 * ((2 * L : ℕ) : ℝ) ^ (-(0.5) : ℝ) else 0.02)),
     if hasBias then some .zeros else none)
  | .embedding => (some (.normal 0 0.02), none)
  | .layerNorm => (none, none)

/-! ## Forward numerics over `ℝ`

Activations of shape `[T, E]` are functions `Fin T → Fin E → ℝ`; the batch
dimension of the script maps every PyTorch operation independently over the
`B` rows, so the batched forms below apply the single-row functions
row-wise.  The embedding width is kept in the factored form `E = nh * hs`
(`n_embd = n_head * head-size`, the divisibility asserted by
`CausalSelfAttention.__init__`), so head splitting and re-concatenation
are index bijections rather than division/modulus arithmetic. -/

/-- Layer `nn.Linear(din, dout)`: `W x + b` with `W : dout × din`. -/
noncomputable def linearF {dout din : ℕ} (W : Fin dout → Fin din → ℝ)
    (b : Fin dout → ℝ) (x : Fin din → ℝ) : Fin dout → ℝ :=
  fun o => (∑ i, W o i * x i) + b o

/-- The flat channel index of dimension `d` of head `h` (the
`view(B, T, nh, hs)` / `transpose` reshaping of the script). -/
def chanIdx (nh hs : ℕ) (h : Fin nh) (d : Fin hs) : Fin (nh * hs) :=
  ⟨h.val * hs + d.val, by
    calc h.val * hs + d.val < h.val * hs + hs := by omega
    _ = (h.val + 1) * hs := by ring
    _ ≤ nh * hs := Nat.mul_le_mul_right hs h.isLt⟩

/-- Channel `c` of the query slice of the width-`3E` `c_attn` output. -/
def qIdx (E : ℕ) (c : Fin E) : Fin (3 * E) :=
  ⟨c.val, by have := c.isLt; omega⟩

/-- Channel `c` of the key slice of the width-`3E` `c_attn` output. -/
def kIdx (E : ℕ) (c : Fin E) : Fin (3 * E) :=
  ⟨E + c.val, by have := c.isLt; omega⟩

/-- Channel `c` of the value slice of the width-`3E` `c_attn` output. -/
def vIdx (E : ℕ) (c : Fin E) : Fin (3 * E) :=
  ⟨2 * E + c.val, by have := c.isLt; omega⟩

/-- The parameters of `CausalSelfAttention`: the fused
`c_attn : Linear(E, 3E)` and the output projection `c_proj : Linear(E, E)`,
with `E = nh * hs`. -/
structure AttnParams (nh hs : ℕ) where
  c_attn_w : Fin (3 * (nh * hs)) → Fin (nh * hs) → ℝ
  c_attn_b : Fin (3 * (nh * hs)) → ℝ
  c_proj_w : Fin (nh * hs) → Fin (nh * hs) → ℝ
  c_proj_b : Fin (nh * hs) → ℝ

/-- The fused `qkv = self.c_attn(x)` activation, width `3E`. -/
noncomputable def qkvOf {nh hs Tn : ℕ} (p : AttnParams nh hs)
    (x : Fin Tn → Fin (nh * hs) → ℝ) : Fin Tn → Fin (3 * (nh * hs)) → ℝ :=
  fun t => linearF p.c_attn_w p.c_attn_b (x t)

/-- The per-head query tensor `q` (first third of `qkv`, head-split). -/
noncomputable def qOf {nh hs Tn : ℕ} (p : AttnParams nh hs)
    (x : Fin Tn → Fin (nh * hs) → ℝ) : Fin Tn → Fin nh → Fin hs → ℝ :=
  fun t h d => qkvOf p x t (qIdx (nh * hs) (chanIdx nh hs h d))

/-- The per-head key tensor `k` (second third of `qkv`, head-split). -/
noncomputable def kOf {nh hs Tn : ℕ} (p : AttnParams nh hs)
    (x : Fin Tn → Fin (nh * hs) → ℝ) : Fin Tn → Fin nh → Fin hs → ℝ :=
  fun t h d => qkvOf p x t (kIdx (nh * hs) (chanIdx nh hs h d))

/-- The per-head value tensor `v` (last third of `qkv`, head-split). -/
noncomputable def vOf {nh hs Tn : ℕ} (p : AttnParams nh hs)
    (x : Fin Tn → Fin (nh * hs) → ℝ) : Fin Tn → Fin nh → Fin hs → ℝ :=
  fun t h d => qkvOf p x t (vIdx (nh * hs) (chanIdx nh hs h d))

/-- The raw attention score of query position `i` against key position `j`
in head `h`: `(q · k) / √head_size`. -/
noncomputable def attOf {nh hs Tn : ℕ} (p : AttnParams nh hs)
    (x : Fin Tn → Fin (nh * hs) → ℝ) : Fin Tn → Fin nh → Fin Tn → ℝ :=
  fun i h j => (∑ d, qOf p x i h d * kOf p x j h d) / Real.sqrt (hs : ℝ)

/-- The causal softmax weight of `F.scaled_dot_product_attention(q, k, v,
is_causal=True)`: scores at key positions later than the query are masked
to `-∞` before the softmax, so they contribute `exp(-∞) = 0` to both the
numerator and the denominator. -/
noncomputable def attWeight {nh hs Tn : ℕ} (p : AttnParams nh hs)
    (x : Fin Tn → Fin (nh * hs) → ℝ) : Fin Tn → Fin nh → Fin Tn → ℝ :=
  fun i h j =>
    (if j.val ≤ i.val then Real.exp (attOf p x i h j) else 0) /
      (∑ j', if j'.val ≤ i.val then Real.exp (attOf p x i h j') else 0)

/-- Shallow embedding of `CausalSelfAttention.forward` on one batch row:
fused qkv projection, per-head causal scaled-dot-product attention, head
re-concatenation (`transpose` / `view`), and the output projection. -/
noncomputable def attnForward {nh hs Tn : ℕ} (p : AttnParams nh hs)
    (x : Fin Tn → Fin (nh * hs) → ℝ) : Fin Tn → Fin (nh * hs) → ℝ :=
  fun i c =>
    (∑ h, ∑ d, p.c_proj_w c (chanIdx nh hs h d) *
      (∑ j, attWeight p x i h j * vOf p x j h d)) + p.c_proj_b c

/-- Batched `CausalSelfAttention.forward` on a `[B, T, E]` activation: the batched
operations act on each batch row independently. -/
noncomputable def attnForwardB {nh hs Bn Tn : ℕ} (p : AttnParams nh hs)
    (x : Fin Bn → Fin Tn → Fin (nh * hs) → ℝ) : Fin Bn → Fin Tn → Fin (nh * hs) → ℝ :=
  fun b => attnForward p (x b)

/-- Nonlinearity `nn.GELU(approximate='tanh')`. -/
noncomputable def geluTanh (x : ℝ) : ℝ :=
  0.5 * x * (1 + Real.tanh (Real.sqrt (2 / Real.pi) * (x + 0.044715 * x ^ 3)))

/-- The parameters of `MLP`: `c_fc : Linear(E, 4E)` and
`c_proj : Linear(4E, E)`. -/
structure MLPParams (E : ℕ) where
  c_fc_w : Fin (4 * E) → Fin E → ℝ
  c_fc_b : Fin (4 * E) → ℝ
  c_proj_w : Fin E → Fin (4 * E) → ℝ
  c_proj_b : Fin E → ℝ

/-- Method `MLP.forward` on one position: expand, GELU, contract. -/
noncomputable def mlpForward {E : ℕ} (p : MLPParams E) (x : Fin E → ℝ) : Fin E → ℝ :=
  linearF p.c_proj_w p.c_proj_b (fun o => geluTanh (linearF p.c_fc_w p.c_fc_b x o))

/-- Layer `nn.LayerNorm(E)` on one position, with PyTorch's default
`eps = 1e-5` and biased variance. -/
noncomputable def layerNorm {E : ℕ} (g b : Fin E → ℝ) (x : Fin E → ℝ) : Fin E → ℝ :=
  let m : ℝ := (∑ e, x e) / (E : ℝ)
  let v : ℝ := (∑ e, (x e - m) ^ 2) / (E : ℝ)
  fun e => (x e - m) / Real.sqrt (v + 1e-5) * g e + b e

/-- The parameters of a `Block`: `ln_1`, `attn`, `ln_2`, `mlp`. -/
structure BlockParams (nh hs : ℕ) where
  ln1_g : Fin (nh * hs) → ℝ
  ln1_b : Fin (nh * hs) → ℝ
  attn : AttnParams nh hs
  ln2_g : Fin (nh * hs) → ℝ
  ln2_b : Fin (nh * hs) → ℝ
  mlp : MLPParams (nh * hs)

/-- Method `Block.forward` on one batch row:
`x = x + attn(ln_1(x)); x = x + mlp(ln_2(x))`. -/
noncomputable def blockForward {nh hs Tn : ℕ} (p : BlockParams nh hs)
    (x : Fin Tn → Fin (nh * hs) → ℝ) : Fin Tn → Fin (nh * hs) → ℝ :=
  let x1 : Fin Tn → Fin (nh * hs) → ℝ :=
    fun t e => x t e + attnForward p.attn (fun u => layerNorm p.ln1_g p.ln1_b (x u)) t e
  fun t e => x1 t e + mlpForward p.mlp (layerNorm p.ln2_g p.ln2_b (x1 t)) e

/-- The parameters of `GPT` with config `block_size = bs`,
`vocab_size = V`, `n_layer = L`, `n_head = nh`, head size `hs`
(`n_embd = nh * hs`).  `wte` doubles as the `lm_head` weight: the script
ties them to one tensor (`self.transformer.wte.weight =
self.lm_head.weight`), so a single field holds the shared tensor. -/
structure GPTParams (bs V L nh hs : ℕ) where
  wte : Fin V → Fin (nh * hs) → ℝ
  wpe : Fin bs → Fin (nh * hs) → ℝ
  blocks : Fin L → BlockParams nh hs
  lnf_g : Fin (nh * hs) → ℝ
  lnf_b : Fin (nh * hs) → ℝ

/-- The logits of `GPT.forward` on one batch row of length `Tn ≤ bs`:
token embedding plus position embedding, the block stack in order, the
final LayerNorm, then the (tied) output projection. -/
noncomputable def gptLogits {bs V L nh hs : ℕ} (p : GPTParams bs V L nh hs)
    {Tn : ℕ} (hT : Tn ≤ bs) (idx : Fin Tn → Fin V) : Fin Tn → Fin V → ℝ :=
  let x0 : Fin Tn → Fin (nh * hs) → ℝ :=
    fun t e => p.wte (idx t) e + p.wpe ⟨t.val, lt_of_lt_of_le t.isLt hT⟩ e
  let xL : Fin Tn → Fin (nh * hs) → ℝ :=
    Fin.foldl L (fun acc l => blockForward (p.blocks l) acc) x0
  let xf : Fin Tn → Fin (nh * hs) → ℝ := fun t => layerNorm p.lnf_g p.lnf_b (xL t)
  fun t v => ∑ e, p.wte v e * xf t e

/-- Loss `F.cross_entropy(logits.view(-1, V), targets.view(-1))`: the mean over
all `B*T` flattened positions of `log (∑ v, exp (logit v)) - logit (target)`. -/
noncomputable def crossEntropyMean {Bn Tn V : ℕ}
    (logits : Fin Bn → Fin Tn → Fin V → ℝ) (tg : Fin Bn → Fin Tn → Fin V) : ℝ :=
  (∑ b, ∑ t, (Real.log (∑ v, Real.exp (logits b t v)) - logits b t (tg b t))) /
    ((Bn : ℝ) * (Tn : ℝ))

/-- Shallow embedding of `GPT.forward`: the
`assert T <= self.config.block_size` guard, then the logits, and — when
targets are supplied — the cross-entropy loss. -/
noncomputable def gptForward {bs V L nh hs : ℕ} (p : GPTParams bs V L nh hs)
    {Bn Tn : ℕ} (idx : Fin Bn → Fin Tn → Fin V)
    (targets : Option (Fin Bn → Fin Tn → Fin V)) :
    Except String ((Fin Bn → Fin Tn → Fin V → ℝ) × Option ℝ) :=
  if hT : Tn ≤ bs then
    let logits := fun b => gptLogits p hT (idx b)
    .ok (logits, targets.map (fun tg => crossEntropyMean logits tg))
  else
    .error ("AssertionError: Cannot forward sequence of length greater than block size")

/-! ## Concrete instances used by the witnesses -/

/-- A 1-head, head-size-1, zero-initialized attention block. -/
noncomputable def attnP0 : AttnParams 1 1 :=
  ⟨fun _ _ => 0, fun _ => 0, fun _ _ => 0, fun _ => 0⟩

/-- A `[1, 2, 1]` activation that is zero everywhere. -/
def xZero : Fin 1 → Fin 2 → Fin 1 → ℝ := fun _ _ _ => 0

/-- A `[1, 2, 1]` activation that differs from `xZero` exactly at
position 1 (the future position of the witness). -/
noncomputable def xPerturbed : Fin 1 → Fin 2 → Fin 1 → ℝ :=
  fun _ t _ => if t.val = 1 then 1 else 0

/-- A trivial `GPT` instance: `block_size = 1`, `vocab_size = 1`,
`n_layer = 0`, one head of size one, zero weights. -/
noncomputable def gptP0 : GPTParams 1 1 0 1 1 :=
  ⟨fun _ _ => 0, fun _ _ => 0, fun l => l.elim0, fun _ => 0, fun _ => 0⟩

/-- A `[1, 1]` token-id input for `gptP0`. -/
def idx0 : Fin 1 → Fin 1 → Fin 1 := fun _ _ => 0

/-! ## Theorems: learning-rate schedule (claim C3) -/

theorem lr_warmup_eq (s : ℕ) (h : s < warmup_steps) :
    get_lr s = max_lr * ((s : ℝ) + 1) / (warmup_steps : ℝ) := by
  simp [get_lr, h]

theorem lr_cosine_eq (s : ℕ) (h1 : warmup_steps ≤ s) (h2 : s ≤ max_steps) :
    get_lr s = min_lr +
      0.5 * (1 + Real.cos (Real.pi *
        (((s : ℝ) - (warmup_steps : ℝ)) / ((max_steps : ℝ) - (warmup_steps : ℝ))))) *
        (max_lr - min_lr) := by
  have hn1 : ¬ s < warmup_steps := not_lt.mpr h1
  have hn2 : ¬ max_steps < s := not_lt.mpr h2
  simp [get_lr, hn1, hn2]

theorem lr_after_max_eq (s : ℕ) (h : max_steps < s) : get_lr s = min_lr := by
  have hn1 : ¬ s < warmup_steps := by
    simp only [warmup_steps, max_steps] at *
    omega
  simp [get_lr, hn1, h]

theorem lr_at_warmup : get_lr warmup_steps = max_lr := by
  rw [lr_cosine_eq warmup_steps le_rfl (by norm_num [warmup_steps, max_steps])]
  rw [sub_self, zero_div, mul_zero, Real.cos_zero]
  ring

theorem lr_at_max : get_lr max_steps = min_lr := by
  rw [lr_cosine_eq max_steps (by norm_num [warmup_steps, max_steps]) le_rfl]
  rw [div_self (by norm_num [warmup_steps, max_steps]), mul_one, Real.cos_pi]
  ring

theorem lr_cos_mono (s1 s2 : ℕ) (h1 : warmup_steps ≤ s1) (h12 : s1 ≤ s2)
    (h2 : s2 ≤ max_steps) : get_lr s2 ≤ get_lr s1 := by
  rw [lr_cosine_eq s1 h1 (h12.trans h2), lr_cosine_eq s2 (h1.trans h12) h2]
  have hD : (0 : ℝ) < (max_steps : ℝ) - (warmup_steps : ℝ) := by
    norm_num [warmup_steps, max_steps]
  have hc1 : (warmup_steps : ℝ) ≤ (s1 : ℝ) := Nat.cast_le.mpr h1
  have hc12 : (s1 : ℝ) ≤ (s2 : ℝ) := Nat.cast_le.mpr h12
  have hc2 : (s2 : ℝ) ≤ (max_steps : ℝ) := Nat.cast_le.mpr h2
  have hr1 : (0 : ℝ) ≤ ((s1 : ℝ) - (warmup_steps : ℝ)) / ((max_steps : ℝ) - (warmup_steps : ℝ)) :=
    div_nonneg (by linarith) hD.le
  have hr12 : ((s1 : ℝ) - (warmup_steps : ℝ)) / ((max_steps : ℝ) - (warmup_steps : ℝ)) ≤
      ((s2 : ℝ) - (warmup_steps : ℝ)) / ((max_steps : ℝ) - (warmup_steps : ℝ)) := by
    gcongr
  have hr2 : ((s2 : ℝ) - (warmup_steps : ℝ)) / ((max_steps : ℝ) - (warmup_steps : ℝ)) ≤ 1 := by
    rw [div_le_one hD]
    linarith
  have hcos : Real.cos (Real.pi *
        (((s2 : ℝ) - (warmup_steps : ℝ)) / ((max_steps : ℝ) - (warmup_steps : ℝ)))) ≤
      Real.cos (Real.pi *
        (((s1 : ℝ) - (warmup_steps : ℝ)) / ((max_steps : ℝ) - (warmup_steps : ℝ)))) :=
    Real.cos_le_cos_of_nonneg_of_le_pi (mul_nonneg Real.pi_pos.le hr1)
      (mul_le_of_le_one_right Real.pi_pos.le hr2)
      (mul_le_mul_of_nonneg_left hr12 Real.pi_pos.le)
  have hGap : (0 : ℝ) ≤ max_lr - min_lr := by norm_num [max_lr, min_lr]
  nlinarith [hcos, hGap]

theorem lr_cos_ge_min (s : ℕ) (h1 : warmup_steps ≤ s) (h2 : s ≤ max_steps) :
    min_lr ≤ get_lr s := by
  rw [lr_cosine_eq s h1 h2]
  have hcos := Real.neg_one_le_cos (Real.pi *
    (((s : ℝ) - (warmup_steps : ℝ)) / ((max_steps : ℝ) - (warmup_steps : ℝ))))
  have hGap : (0 : ℝ) ≤ max_lr - min_lr := by norm_num [max_lr, min_lr]
  nlinarith [hcos, hGap]

/-- C3: the learning-rate schedule `get_lr` is a pure function with linear
warmup `max_lr * (step+1) / warmup_steps` below `warmup_steps`, value
`max_lr` at the warmup boundary, monotone non-increasing from
`warmup_steps` on, value `min_lr` at `max_steps` and beyond, and
`min_lr = 0.1 * max_lr` (with `0 < warmup_steps < max_steps` holding for
the script's constants `715 < 19073`). -/
theorem get_lr_schedule_spec :
    (∀ s, s < warmup_steps → get_lr s = max_lr * ((s : ℝ) + 1) / (warmup_steps : ℝ)) ∧
    get_lr warmup_steps = max_lr ∧
    (∀ s1 s2, warmup_steps ≤ s1 → s1 ≤ s2 → get_lr s2 ≤ get_lr s1) ∧
    get_lr max_steps = min_lr ∧
    (∀ s, max_steps < s → get_lr s = min_lr) ∧
    min_lr = 0.1 * max_lr ∧
    0 < warmup_steps ∧ warmup_steps < max_steps := by
  refine ⟨lr_warmup_eq, lr_at_warmup, ?_, lr_at_max, lr_after_max_eq, ?_, ?_, ?_⟩
  · intro s1 s2 h1 h12
    rcases le_or_lt s2 max_steps with h2 | h2
    · exact lr_cos_mono s1 s2 h1 h12 h2
    · rw [lr_after_max_eq s2 h2]
      rcases le_or_lt s1 max_steps with h1m | h1m
      · exact lr_cos_ge_min s1 h1 h1m
      · rw [lr_after_max_eq s1 h1m]
  · rw [min_lr, mul_comm]
  · decide
  · decide

/-- Witness for C3 at a concrete step past `max_steps`. -/
theorem get_lr_schedule_spec_witness : get_lr 19074 = min_lr :=
  get_lr_schedule_spec.2.2.2.2.1 19074 (by decide)

/-! ## Theorems: shard loader (claims C6 and C10) -/

theorem loader_views_ok (s : DState)
    (hpos : s.current_position + (s.B * s.T + 1) ≤ s.tokens.length) :
    viewBT s.B s.T ((s.tokens.drop s.current_position).take (s.B * s.T + 1)).dropLast =
      .ok (reshapeBT s.B s.T
        (((s.tokens.drop s.current_position).take (s.B * s.T + 1)).dropLast)) ∧
    viewBT s.B s.T (((s.tokens.drop s.current_position).take (s.B * s.T + 1)).drop 1) =
      .ok (reshapeBT s.B s.T
        (((s.tokens.drop s.current_position).take (s.B * s.T + 1)).drop 1)) := by
  have hbuf : ((s.tokens.drop s.current_position).take (s.B * s.T + 1)).length =
      s.B * s.T + 1 := by
    simp only [List.length_take, List.length_drop]
    omega
  constructor
  · have hx : (((s.tokens.drop s.current_position).take (s.B * s.T + 1)).dropLast).length =
        s.B * s.T := by
      rw [List.length_dropLast, hbuf]
      omega
    simp only [viewBT]
    rw [if_pos hx]
  · have hy : ((((s.tokens.drop s.current_position).take (s.B * s.T + 1)).drop 1)).length =
        s.B * s.T := by
      rw [List.length_drop, hbuf]
      omega
    simp only [viewBT]
    rw [if_pos hy]

/-- C6: in any loader state whose loaded shard holds exactly
`B*T*num_processes + k` tokens with `k < B*T + 1` (and whose cursor allows a
full read), `next_batch` returns a batch sliced entirely from the currently
loaded shard buffer `s.tokens`, and the post-state has advanced to the next
shard index (wrapping via `%`), loaded that shard fully, and reset the
cursor to `B * T * process_rank`. -/
theorem next_batch_rollover (s : DState) (k : ℕ)
    (hnp : 1 ≤ s.num_processes)
    (hlen : s.tokens.length = s.B * s.T * s.num_processes + k)
    (hk : k < s.B * s.T + 1)
    (hpos : s.current_position + (s.B * s.T + 1) ≤ s.tokens.length) :
    s.next_batch = .ok
      (reshapeBT s.B s.T
        (((s.tokens.drop s.current_position).take (s.B * s.T + 1)).dropLast),
       reshapeBT s.B s.T
        (((s.tokens.drop s.current_position).take (s.B * s.T + 1)).drop 1),
       { s with
         current_shard := (s.current_shard + 1) % s.shards.length
         tokens := s.shards.getD ((s.current_shard + 1) % s.shards.length) []
         current_position := s.B * s.T * s.process_rank }) := by
  obtain ⟨hx, hy⟩ := loader_views_ok s hpos
  have hBT : s.B * s.T ≤ s.B * s.T * s.num_processes :=
    Nat.le_mul_of_pos_right _ hnp
  have hcond : s.current_position + s.B * s.T * s.num_processes +
      (s.B * s.T * s.num_processes + 1) > s.tokens.length := by
    omega
  simp only [DState.next_batch, hx, hy, bind, Except.bind, pure, Except.pure]
  rw [if_pos hcond]

/-- Loader invariant preservation: from a state with a readable cursor whose
offset is congruent to `B*T*process_rank` modulo the stride, one
`next_batch` call succeeds, preserves the constructor fields, and
re-establishes both facts. -/
theorem next_batch_safe_step (s : DState)
    (hnp : 0 < s.num_processes)
    (hrank : s.process_rank < s.num_processes)
    (hsh : s.shards ≠ [])
    (hall : ∀ sh ∈ s.shards, s.B * s.T * s.num_processes + 1 ≤ sh.length)
    (hpos : s.current_position + (s.B * s.T + 1) ≤ s.tokens.length)
    (hmod : s.current_position % (s.B * s.T * s.num_processes) =
      (s.B * s.T * s.process_rank) % (s.B * s.T * s.num_processes)) :
    ∃ x y s', s.next_batch = .ok (x, y, s') ∧
      s'.B = s.B ∧ s'.T = s.T ∧ s'.process_rank = s.process_rank ∧
      s'.num_processes = s.num_processes ∧ s'.shards = s.shards ∧
      s'.current_position + (s'.B * s'.T + 1) ≤ s'.tokens.length ∧
      s'.current_position % (s'.B * s'.T * s'.num_processes) =
        (s'.B * s'.T * s'.process_rank) % (s'.B * s'.T * s'.num_processes) := by
  obtain ⟨hx, hy⟩ := loader_views_ok s hpos
  have hBT : s.B * s.T ≤ s.B * s.T * s.num_processes :=
    Nat.le_mul_of_pos_right _ hnp
  simp only [DState.next_batch, hx, hy, bind, Except.bind, pure, Except.pure]
  by_cases hcond : s.current_position + s.B * s.T * s.num_processes +
      (s.B * s.T * s.num_processes + 1) > s.tokens.length
  · rw [if_pos hcond]
    refine ⟨_, _, _, rfl, rfl, rfl, rfl, rfl, rfl, ?_, ?_⟩
    · have hlt : (s.current_shard + 1) % s.shards.length < s.shards.length :=
        Nat.mod_lt _ (List.length_pos.mpr hsh)
      have hmem : s.shards.getD ((s.current_shard + 1) % s.shards.length) [] ∈ s.shards := by
        rw [List.getD_eq_getElem s.shards [] hlt]
        exact List.getElem_mem hlt
      have hlen := hall _ hmem
      have hmul : s.B * s.T * s.process_rank + s.B * s.T ≤ s.B * s.T * s.num_processes := by
        have : s.B * s.T * (s.process_rank + 1) ≤ s.B * s.T * s.num_processes :=
          Nat.mul_le_mul_left _ hrank
        nlinarith
      simp only []
      omega
    · rfl
  · rw [if_neg hcond]
    refine ⟨_, _, _, rfl, rfl, rfl, rfl, rfl, rfl, ?_, ?_⟩
    · simp only []
      omega
    · simp only []
      exact (Nat.add_mod_right _ _).trans hmod

/-- Witness for C6: the concrete state `rollState` reads its batch from the
loaded shard `[3, 4]` and rolls over to shard 1, reloading `[8, 9]` and
resetting the cursor. -/
theorem next_batch_rollover_witness :
    rollState.next_batch = .ok ([[3]], [[4]],
      { rollState with current_shard := 1, tokens := [8, 9], current_position := 0 }) :=
  next_batch_rollover rollState 1 (by decide) (by decide) (by decide) (by decide)

theorem loader_iterate_inv (s : DState)
    (hnp : 0 < s.num_processes)
    (hrank : s.process_rank < s.num_processes)
    (hsh : s.shards ≠ [])
    (hall : ∀ sh ∈ s.shards, s.B * s.T * s.num_processes + 1 ≤ sh.length)
    (hpos : s.current_position + (s.B * s.T + 1) ≤ s.tokens.length)
    (hmod : s.current_position % (s.B * s.T * s.num_processes) =
      (s.B * s.T * s.process_rank) % (s.B * s.T * s.num_processes)) :
    ∀ n, ∃ s', s.iterate n = .ok s' ∧
      s'.B = s.B ∧ s'.T = s.T ∧ s'.process_rank = s.process_rank ∧
      s'.num_processes = s.num_processes ∧ s'.shards = s.shards ∧
      s'.current_position + (s'.B * s'.T + 1) ≤ s'.tokens.length ∧
      s'.current_position % (s'.B * s'.T * s'.num_processes) =
        (s'.B * s'.T * s'.process_rank) % (s'.B * s'.T * s'.num_processes) := by
  intro n
  induction n with
  | zero => exact ⟨s, rfl, rfl, rfl, rfl, rfl, rfl, hpos, hmod⟩
  | succ n ih =>
    obtain ⟨s1, hit, hB1, hT1, hr1, hn1, hsh1, hpos1, hmod1⟩ := ih
    obtain ⟨x, y, s2, hnb, hB2, hT2, hr2, hn2, hsh2, hpos2, hmod2⟩ :=
      next_batch_safe_step s1 (hn1 ▸ hnp) (by rw [hr1, hn1]; exact hrank)
        (by rw [hsh1]; exact hsh)
        (by rw [hB1, hT1, hn1, hsh1]; exact hall) hpos1 hmod1
    refine ⟨s2, ?_, hB2.trans hB1, hT2.trans hT1, hr2.trans hr1,
      hn2.trans hn1, hsh2.trans hsh1, hpos2, hmod2⟩
    simp [DState.iterate, hit, hnb, bind, Except.bind, pure, Except.pure]

/-- C10: (safety) if every shard holds at least `B*T*num_processes + 1`
tokens, `process_rank < num_processes`, and the shard list is non-empty,
then every sequence of `next_batch` calls after `reset()` succeeds — each
call finds at least `B*T + 1` tokens at its cursor, so the slicing and
`view(B, T)` reshapes never fail — and after every call the cursor is
congruent to `B*T*process_rank` modulo `B*T*num_processes`;
(failure case) with a single shard smaller than `B*T*num_processes + 1`
tokens, the first read after `reset()` fails. -/
theorem loader_safety :
    (∀ s : DState, 0 < s.num_processes → s.process_rank < s.num_processes →
      s.shards ≠ [] → (∀ sh ∈ s.shards, s.B * s.T * s.num_processes + 1 ≤ sh.length) →
      ∀ n, ∃ s', (s.reset).iterate n = .ok s' ∧
        s'.current_position + (s.B * s.T + 1) ≤ s'.tokens.length ∧
        s'.current_position % (s.B * s.T * s.num_processes) =
          (s.B * s.T * s.process_rank) % (s.B * s.T * s.num_processes)) ∧
    smallState.reset.next_batch = .error ("RuntimeError: shape invalid for input of size") := by
  constructor
  · intro s hnp hrank hsh hall n
    have hlen0 : s.B * s.T * s.num_processes + 1 ≤ (s.shards.getD 0 []).length := by
      have hlt : 0 < s.shards.length := List.length_pos.mpr hsh
      have hmem : s.shards.getD 0 [] ∈ s.shards := by
        rw [List.getD_eq_getElem s.shards [] hlt]
        exact List.getElem_mem hlt
      exact hall _ hmem
    have hpos0 : (s.reset).current_position + ((s.reset).B * (s.reset).T + 1) ≤
        (s.reset).tokens.length := by
      show s.B * s.T * s.process_rank + (s.B * s.T + 1) ≤ (s.shards.getD 0 []).length
      have hmul : s.B * s.T * (s.process_rank + 1) ≤ s.B * s.T * s.num_processes :=
        Nat.mul_le_mul_left _ hrank
      nlinarith
    have hmod0 : (s.reset).current_position %
          ((s.reset).B * (s.reset).T * (s.reset).num_processes) =
        ((s.reset).B * (s.reset).T * (s.reset).process_rank) %
          ((s.reset).B * (s.reset).T * (s.reset).num_processes) := rfl
    obtain ⟨s', hit, hB, hT, hr, hn, _, hpos, hmod⟩ :=
      loader_iterate_inv (s.reset) hnp hrank hsh hall hpos0 hmod0 n
    have hB' : s'.B = s.B := hB
    have hT' : s'.T = s.T := hT
    have hr' : s'.process_rank = s.process_rank := hr
    have hn' : s'.num_processes = s.num_processes := hn
    refine ⟨s', hit, ?_, ?_⟩
    · rw [← hB', ← hT']
      exact hpos
    · rw [← hB', ← hT', ← hr', ← hn']
      exact hmod
  · rfl

/-- Witness for C10 at the concrete loader `rollState` (each of its shards
holds `B*T*num_processes + 1 = 2` tokens) after three `next_batch` calls. -/
theorem loader_safety_witness :
    ∃ s', (rollState.reset).iterate 3 = .ok s' ∧
      s'.current_position + (rollState.B * rollState.T + 1) ≤ s'.tokens.length ∧
      s'.current_position % (rollState.B * rollState.T * rollState.num_processes) =
        (rollState.B * rollState.T * rollState.process_rank) %
          (rollState.B * rollState.T * rollState.num_processes) :=
  loader_safety.1 rollState (by decide) (by decide) (by decide) (by decide) 3

/-! ## Theorems: gradient accumulation (claim C7) -/

theorem foldl_div_accum (c : ℝ) (f : ℕ → ℝ) (l : List ℕ) :
    ∀ a : ℝ, l.foldl (fun acc i => acc + f i / c) a = a + (l.map f).sum / c := by
  induction l with
  | nil => intro a; simp
  | cons x xs ih =>
    intro a
    simp only [List.foldl_cons, List.map_cons, List.sum_cons]
    rw [ih]
    ring

/-- C7: `grad_accum_steps` succeeds exactly when `B*T*world_size` divides
`total_batch_size` (and then equals the quotient; the run aborts with an
`assert` otherwise); the loop's `loss_accum`, which folds
`loss / grad_accum_steps` over the window, is the mean of the raw
micro-batch losses; and the DDP gradient synchronization flag of a
micro-step is set exactly on the final micro-step of the window. -/
theorem grad_accum_spec (w : ℕ) :
    (gradAccumStepsE w = .ok (total_batch_size / (B * T * w)) ↔
      (B * T * w) ∣ total_batch_size) ∧
    (¬ (B * T * w) ∣ total_batch_size →
      gradAccumStepsE w =
        .error ("AssertionError: make sure total_batch_size is divisible by B * T * ddp_world_size")) ∧
    (∀ gas : ℕ, ∀ losses : ℕ → ℝ, 0 < gas →
      microLossAccum gas losses = ((List.range gas).map losses).sum / (gas : ℝ)) ∧
    (∀ gas micro_step : ℕ, micro_step < gas →
      (syncFlag micro_step gas = true ↔ micro_step = gas - 1)) := by
  refine ⟨?_, ?_, ?_, ?_⟩
  · rw [Nat.dvd_iff_mod_eq_zero]
    constructor
    · intro h
      by_contra hmod
      simp [gradAccumStepsE, hmod] at h
    · intro h
      simp [gradAccumStepsE, h]
  · intro h
    rw [Nat.dvd_iff_mod_eq_zero] at h
    simp [gradAccumStepsE, h]
  · intro gas losses _
    rw [microLossAccum, foldl_div_accum]
    ring
  · intro gas micro_step _
    simp [syncFlag]

/-- Witness for C7 in the single-worker configuration `world_size = 1`:
`524288 / (64 * 1024) = 8` accumulation steps, and the sync flag of the
final micro-step. -/
theorem grad_accum_spec_witness :
    gradAccumStepsE 1 = .ok (total_batch_size / (B * T * 1)) ∧
    (syncFlag 7 8 = true ↔ 7 = 8 - 1) :=
  ⟨(grad_accum_spec 1).1.mpr (by decide), (grad_accum_spec 1).2.2.2 8 7 (by decide)⟩

/-! ## Theorems: weight import (claim C8) -/

/-- Counterexample to C8 as stated: on the concrete state-dict pair
`sdTargetC` / `sdSourceC` (equal key counts, key `b` of incompatible
shape), the import aborts with the shape `assert` — but key `a` has
already been copied into the target, whose dict differs from its original
value.  So shape equality is not verified before any copy, and a detected
mismatch does not leave the target untouched. -/
theorem from_pretrained_partial_copy :
    (fromPretrainedCopy sdTargetC sdSourceC).2 =
      some ("AssertionError: shape mismatch at b") ∧
    (fromPretrainedCopy sdTargetC sdSourceC).1 ≠ sdTargetC ∧
    sdFind (fromPretrainedCopy sdTargetC sdSourceC).1 "a" = some ⟨[2], 7⟩ := by
  refine ⟨rfl, ?_, rfl⟩
  decide

/-- C8 amended: before any copy only the key-count equality is verified
(and a count mismatch aborts with the target untouched); key lookup and
shape equality are verified per key, immediately before that key's own
copy, with a mismatch aborting at that point; a key whose checks pass is
copied before the next key is examined (so earlier copies survive a later
mismatch). -/
theorem from_pretrained_check_order :
    (∀ sd sdhf : List (String × HTensor), sdhf.length ≠ sd.length →
      fromPretrainedCopy sd sdhf = (sd, some ("AssertionError: mismatched keys"))) ∧
    (∀ (sdhf : List (String × HTensor)) (k : String) (rest : List String)
        (sd : List (String × HTensor)) (src dst : HTensor),
      sdFind sdhf k = some src → sdFind sd k = some dst →
      endsWithAny k transposedSuffixes = false → src.shape ≠ dst.shape →
      copyLoop sdhf (k :: rest) sd =
        (sd, some ("AssertionError: shape mismatch at " ++ k))) ∧
    (∀ (sdhf : List (String × HTensor)) (k : String) (rest : List String)
        (sd : List (String × HTensor)) (src dst : HTensor),
      sdFind sdhf k = some src → sdFind sd k = some dst →
      endsWithAny k transposedSuffixes = false → src.shape = dst.shape →
      copyLoop sdhf (k :: rest) sd = copyLoop sdhf rest (sdSet sd k src.data)) ∧
    (∀ (sdhf : List (String × HTensor)) (k : String) (rest : List String)
        (sd : List (String × HTensor)) (src dst : HTensor),
      sdFind sdhf k = some src → sdFind sd k = some dst →
      endsWithAny k transposedSuffixes = true → src.shape.reverse ≠ dst.shape →
      copyLoop sdhf (k :: rest) sd =
        (sd, some ("AssertionError: transposed shape mismatch at " ++ k))) := by
  refine ⟨?_, ?_, ?_, ?_⟩
  · intro sd sdhf h
    simp [fromPretrainedCopy, h]
  · intro sdhf k rest sd src dst h1 h2 h3 h4
    simp [copyLoop, h1, h2, h3, h4]
  · intro sdhf k rest sd src dst h1 h2 h3 h4
    simp [copyLoop, h1, h2, h3, h4]
  · intro sdhf k rest sd src dst h1 h2 h3 h4
    simp [copyLoop, h1, h2, h3, h4]

/-- Witness for the amended C8: a key-count mismatch aborts with the
target dict unchanged. -/
theorem from_pretrained_check_order_witness :
    fromPretrainedCopy sdTargetC [] = (sdTargetC, some ("AssertionError: mismatched keys")) :=
  from_pretrained_check_order.1 sdTargetC [] (by decide)

/-! ## Theorems: periodic sampling (claim C9) -/

/-- C9 fails on the code: at a sampling event the generation loop produces
the fresh continuation (`[5, 7]` from prompt `[5]` with a picker that
always chooses token 7), but the reporting loop decodes
`x[i, :max_length]` from the leftover micro-batch `x` (here `[[99]]`),
which is not the freshly generated sequence.  The spec itself flags this
as a latent bug of the reference behaviour, so the claim stands and the
code is wrong. -/
theorem sampling_reports_stale_buffer :
    samplingGenerate (fun _ => 7) 1 2 [5] = [[5, 7]] ∧
    samplingReport [[99]] 1 2 = [[99]] ∧
    samplingReport [[99]] 1 2 ≠ samplingGenerate (fun _ => 7) 1 2 [5] := by
  refine ⟨rfl, rfl, ?_⟩
  decide

/-! ## Theorems: weight tying (claim C4) -/

theorem blockSlots_names (i : ℕ) (s : PSlot) (hs : s ∈ blockSlots i) :
    s.name ≠ (.wte, .weight) ∧ s.name ≠ (.lm_head, .weight) := by
  fin_cases hs <;> simp

theorem gptSlots_find_wte (L : ℕ) :
    (gptSlots L).find? (fun s => s.name = (MName.wte, PParam.weight)) =
      some ⟨(.wte, .weight), lmTid L, 2⟩ := by
  simp only [gptSlots, tieWeights, gptSlotsPre, List.map_cons]
  rw [List.find?_cons_of_pos]
  · simp
  · simp

theorem gptSlots_find_lm_head (L : ℕ) :
    (gptSlots L).find? (fun s => s.name = (MName.lm_head, PParam.weight)) =
      some ⟨(.lm_head, .weight), lmTid L, 2⟩ := by
  simp only [gptSlots, tieWeights, gptSlotsPre, List.map_cons, List.map_append]
  rw [List.find?_cons_of_neg _ (by simp), List.find?_cons_of_neg _ (by simp),
    List.find?_append]
  have hnone : List.find? (fun s => s.name = (MName.lm_head, PParam.weight))
      (((List.range L).flatMap blockSlots).map
        (fun s => if s.name = (MName.wte, PParam.weight) then
          { s with tid := lmTid L } else s)) = none := by
    rw [List.find?_eq_none]
    intro x hx
    rw [List.mem_map] at hx
    obtain ⟨y, hy, hxy⟩ := hx
    rw [List.mem_flatMap] at hy
    obtain ⟨i, _, hyi⟩ := hy
    have hname := (blockSlots_names i y hyi).2
    have hxname : x.name = y.name := by
      rw [← hxy]
      by_cases hcase : y.name = (MName.wte, PParam.weight) <;> simp [hcase]
    simp [hxname, hname]
  rw [hnone]
  simp [lmTid]

theorem dedup_countP (t : ℕ) : ∀ (l : List PSlot) (seen : List ℕ),
    List.countP (fun s => s.tid == t) (dedupByTid l seen) =
      if t ∈ seen then 0 else if t ∈ l.map PSlot.tid then 1 else 0 := by
  intro l
  induction l with
  | nil => intro seen; by_cases h : t ∈ seen <;> simp [dedupByTid, h]
  | cons s rest ih =>
    intro seen
    simp only [dedupByTid]
    by_cases hs : s.tid ∈ seen
    · rw [if_pos hs, ih]
      by_cases ht : t ∈ seen
      · simp [ht]
      · have hne : t ≠ s.tid := fun hEq => ht (hEq ▸ hs)
        simp [ht, List.mem_map, hne, eq_comm]
    · rw [if_neg hs]
      rw [List.countP_cons, ih (s.tid :: seen)]
      by_cases hts : t = s.tid
      · have hseen' : t ∈ s.tid :: seen := by
          rw [hts]
          exact List.mem_cons_self _ _
        have htn : t ∉ seen := by
          rw [hts]
          exact hs
        have hbeq : (s.tid == t) = true := by
          rw [beq_iff_eq, hts]
        simp [hseen', htn, hbeq, hts, hs]
      · have hmem' : (t ∈ s.tid :: seen) ↔ t ∈ seen := by
          constructor
          · intro h
            rcases List.mem_cons.mp h with h1 | h1
            · exact absurd h1 hts
            · exact h1
          · intro h
            exact List.mem_cons_of_mem _ h
        have hbeq : (s.tid == t) = false := by
          rw [beq_eq_false_iff_ne]
          exact fun hEq => hts hEq.symm
        simp only [hmem', hbeq, List.map_cons, List.mem_cons]
        by_cases ht : t ∈ seen
        · simp [ht]
        · simp [ht, hts]

theorem countP_rank_split (t : ℕ) (l : List PSlot) :
    List.countP (fun s => s.tid == t) (l.filter (fun s => 2 ≤ s.rank)) +
      List.countP (fun s => s.tid == t) (l.filter (fun s => s.rank < 2)) =
      List.countP (fun s => s.tid == t) l := by
  induction l with
  | nil => simp
  | cons s rest ih =>
    rw [List.filter_cons, List.filter_cons, List.countP_cons]
    by_cases h2 : 2 ≤ s.rank
    · have h2' : ¬ s.rank < 2 := by omega
      simp only [h2, h2', decide_True, decide_False, if_true, if_false,
        List.countP_cons, decide_eq_true_eq, if_neg, if_pos]
      simp [h2, h2', List.countP_cons]
      omega
    · have h2' : s.rank < 2 := by omega
      simp [h2, h2', List.countP_cons]
      omega

theorem lmTid_mem_gptSlots (L : ℕ) :
    lmTid L ∈ (gptSlots L).map PSlot.tid := by
  simp [gptSlots, tieWeights, gptSlotsPre]

/-- C4: after `GPT.__init__` (whose last act before `apply(_init_weights)`
is `self.transformer.wte.weight = self.lm_head.weight`), the
token-embedding slot and the output-projection slot reference the same
tensor object; writing an entry through either name is observable when
reading through the other; and that shared tensor appears exactly once —
neither doubled nor dropped — across the optimizer's two parameter groups
(its single `named_parameters` occurrence lands in the decayed group, as
it is rank 2).  `_init_weights` and `configure_optimizers` act only on
tensor contents (the heap), never on the slot table, so the slot-level
facts are preserved by them. -/
theorem weight_tying_spec (L : ℕ) :
    ptid (gptSlots L) (.wte, .weight) = lmTid L ∧
    ptid (gptSlots L) (.lm_head, .weight) = lmTid L ∧
    (∀ (h : Heap) (i j : ℕ) (v : ℝ),
      readParam (gptSlots L) (writeEntry h (ptid (gptSlots L) (.wte, .weight)) i j v)
        (.lm_head, .weight) i j = v ∧
      readParam (gptSlots L) (writeEntry h (ptid (gptSlots L) (.lm_head, .weight)) i j v)
        (.wte, .weight) i j = v) ∧
    List.countP (fun s => s.tid == lmTid L) (decay_params L ++ nodecay_params L) = 1 := by
  have hw : ptid (gptSlots L) (.wte, .weight) = lmTid L := by
    rw [ptid, gptSlots_find_wte]
    rfl
  have hl : ptid (gptSlots L) (.lm_head, .weight) = lmTid L := by
    rw [ptid, gptSlots_find_lm_head]
    rfl
  refine ⟨hw, hl, ?_, ?_⟩
  · intro h i j v
    constructor
    · rw [readParam, hl, hw, writeEntry]
      simp
    · rw [readParam, hw, hl, writeEntry]
      simp
  · rw [List.countP_append, decay_params, nodecay_params, countP_rank_split,
      namedParameters, dedup_countP]
    simp [lmTid_mem_gptSlots L]

/-! ## Theorems: initialization (claim C5) -/

/-- C5: `_init_weights` draws every `nn.Linear` weight from a zero-mean
normal with standard deviation `0.02`, except that a module carrying the
`NANOGPT_SCALE_INIT` flag gets `0.02 * (2 * n_layer) ** -0.5`; it zeroes
every `nn.Linear` bias (and leaves absent biases absent); it draws every
`nn.Embedding` table from a zero-mean normal with standard deviation
`0.02`; and, over the module table of `GPT.__init__`, the flag is set on
exactly the residual-path output projections `attn.c_proj` and
`mlp.c_proj`. -/
theorem init_weights_spec (L : ℕ) (m : MDecl) (hm : m ∈ gptModules L) :
    (∀ hb : Bool, m.kind = .linear true hb →
      (initWeights L m.kind).1 =
        some (.normal 0 (0.02 * ((2 * L : ℕ) : ℝ) ^ (-(0.5) : ℝ)))) ∧
    (∀ hb : Bool, m.kind = .linear false hb →
      (initWeights L m.kind).1 = some (.normal 0 0.02)) ∧
    (∀ sc : Bool, m.kind = .linear sc true → (initWeights L m.kind).2 = some .zeros) ∧
    (∀ sc : Bool, m.kind = .linear sc false → (initWeights L m.kind).2 = none) ∧
    (m.kind = .embedding →
      (initWeights L m.kind).1 = some (.normal 0 0.02) ∧ (initWeights L m.kind).2 = none) ∧
    (∀ sc hb : Bool, m.kind = .linear sc hb →
      (sc = true ↔ ∃ i, m.name = .attn_c_proj i ∨ m.name = .mlp_c_proj i)) := by
  refine ⟨?_, ?_, ?_, ?_, ?_, ?_⟩
  · intro hb h
    rw [h]
    simp [initWeights]
  · intro hb h
    rw [h]
    simp [initWeights]
  · intro sc h
    rw [h]
    simp [initWeights]
  · intro sc h
    rw [h]
    simp [initWeights]
  · intro h
    rw [h]
    simp [initWeights]
  · intro sc hb h
    simp only [gptModules, List.mem_cons, List.mem_append, List.mem_flatMap,
      List.mem_range, List.mem_singleton] at hm
    rcases hm with rfl | rfl | ⟨i, _, hmem⟩ | rfl | rfl | h0
    · simp at h
    · simp at h
    · fin_cases hmem
      · simp at h
      · simp only [MDecl.kind] at h
        rcases (by simpa using h : false = sc ∧ true = hb) with ⟨rfl, rfl⟩
        simp
      · simp only [MDecl.kind] at h
        rcases (by simpa using h : true = sc ∧ true = hb) with ⟨rfl, rfl⟩
        simp
      · simp at h
      · simp only [MDecl.kind] at h
        rcases (by simpa using h : false = sc ∧ true = hb) with ⟨rfl, rfl⟩
        simp
      · simp only [MDecl.kind] at h
        rcases (by simpa using h : true = sc ∧ true = hb) with ⟨rfl, rfl⟩
        simp
    · simp at h
    · simp only [MDecl.kind] at h
      rcases (by simpa using h : false = sc ∧ false = hb) with ⟨rfl, rfl⟩
      simp
    · exact absurd h0 (List.not_mem_nil m)

/-- Witness for C5: in the 12-layer configuration, the flagged attention
output projection of block 0 is initialized with the scaled standard
deviation. -/
theorem init_weights_spec_witness :
    (initWeights 12 (MKind.linear true true)).1 =
      some (.normal 0 (0.02 * ((2 * 12 : ℕ) : ℝ) ^ (-(0.5) : ℝ))) :=
  (init_weights_spec 12 ⟨.attn_c_proj 0, .linear true true⟩ (by decide)).1 true rfl

/-! ## Theorems: causal masking (claim C1) -/

set_option maxHeartbeats 1000000 in
theorem attnForward_causal {nh hs Tn : ℕ} (p : AttnParams nh hs)
    (x x' : Fin Tn → Fin (nh * hs) → ℝ) (i j : Fin Tn) (hij : i < j)
    (hagree : ∀ t : Fin Tn, t ≠ j → ∀ c, x t c = x' t c) (e : Fin (nh * hs)) :
    attnForward p x i e = attnForward p x' i e := by
  have hijv : i.val < j.val := hij
  have hrow : ∀ t : Fin Tn, t.val ≤ i.val → x t = x' t := by
    intro t ht
    funext c
    apply hagree
    intro hEq
    have htv : t.val = j.val := congrArg Fin.val hEq
    omega
  have hqkv : ∀ t : Fin Tn, t.val ≤ i.val → qkvOf p x t = qkvOf p x' t := by
    intro t ht
    simp only [qkvOf]
    rw [hrow t ht]
  have hq : ∀ (h : Fin nh) (d : Fin hs), qOf p x i h d = qOf p x' i h d := by
    intro h d
    simp only [qOf]
    rw [hqkv i le_rfl]
  have hk : ∀ (t : Fin Tn), t.val ≤ i.val → ∀ (h : Fin nh) (d : Fin hs),
      kOf p x t h d = kOf p x' t h d := by
    intro t ht h d
    simp only [kOf]
    rw [hqkv t ht]
  have hv : ∀ (t : Fin Tn), t.val ≤ i.val → ∀ (h : Fin nh) (d : Fin hs),
      vOf p x t h d = vOf p x' t h d := by
    intro t ht h d
    simp only [vOf]
    rw [hqkv t ht]
  have hatt : ∀ (h : Fin nh) (j' : Fin Tn), j'.val ≤ i.val →
      attOf p x i h j' = attOf p x' i h j' := by
    intro h j' hle
    simp only [attOf]
    congr 1
    apply Finset.sum_congr rfl
    intro d _
    rw [hq h d, hk j' hle h d]
  have hw : ∀ (h : Fin nh) (j' : Fin Tn), attWeight p x i h j' = attWeight p x' i h j' := by
    intro h j'
    simp only [attWeight]
    have hden : (∑ j'', if j''.val ≤ i.val then Real.exp (attOf p x i h j'') else 0) =
        (∑ j'', if j''.val ≤ i.val then Real.exp (attOf p x' i h j'') else 0) := by
      apply Finset.sum_congr rfl
      intro j'' _
      by_cases hle : j''.val ≤ i.val
      · rw [if_pos hle, if_pos hle, hatt h j'' hle]
      · rw [if_neg hle, if_neg hle]
    rw [hden]
    by_cases hle : j'.val ≤ i.val
    · rw [if_pos hle, if_pos hle, hatt h j' hle]
    · rw [if_neg hle, if_neg hle]
  have hyh : ∀ (h : Fin nh) (d : Fin hs),
      (∑ j', attWeight p x i h j' * vOf p x j' h d) =
        (∑ j', attWeight p x' i h j' * vOf p x' j' h d) := by
    intro h d
    apply Finset.sum_congr rfl
    intro j' _
    by_cases hle : j'.val ≤ i.val
    · rw [hw h j', hv j' hle h d]
    · have hz : attWeight p x i h j' = 0 := by
        simp only [attWeight]
        rw [if_neg hle, zero_div]
      have hz' : attWeight p x' i h j' = 0 := by
        simp only [attWeight]
        rw [if_neg hle, zero_div]
      rw [hz, hz', zero_mul, zero_mul]
  simp only [attnForward]
  have hsum : (∑ h, ∑ d, p.c_proj_w e (chanIdx nh hs h d) *
        (∑ j', attWeight p x i h j' * vOf p x j' h d)) =
      (∑ h, ∑ d, p.c_proj_w e (chanIdx nh hs h d) *
        (∑ j', attWeight p x' i h j' * vOf p x' j' h d)) :=
    Finset.sum_congr rfl (fun h _ => Finset.sum_congr rfl (fun d _ => by rw [hyh h d]))
  rw [hsum]

/-- C1: causal masking.  For a `[B, T, E]` input activation and positions
`i < j`, the output of `CausalSelfAttention.forward` at position `i` (in
every batch row and channel) is unchanged when the input at position `j`
is replaced by any other value: key positions later than the query are
masked to `-∞` before the softmax, so they carry zero attention weight.
(Proved for every `T`, hence in particular for `T ≤ block_size`.) -/
theorem causal_masking {nh hs Bn Tn : ℕ} (p : AttnParams nh hs)
    (x x' : Fin Bn → Fin Tn → Fin (nh * hs) → ℝ) (b : Fin Bn) (i j : Fin Tn)
    (e : Fin (nh * hs)) (hij : i < j)
    (hagree : ∀ (b' : Fin Bn) (t : Fin Tn), t ≠ j → ∀ c, x b' t c = x' b' t c) :
    attnForwardB p x b i e = attnForwardB p x' b i e :=
  attnForward_causal p (x b) (x' b) i j hij (fun t ht c => hagree b t ht c) e

/-- Witness for C1: a two-position input, perturbed only at the future
position 1, leaves the attention output at position 0 unchanged. -/
theorem causal_masking_witness :
    attnForwardB attnP0 xZero 0 0 0 = attnForwardB attnP0 xPerturbed 0 0 0 :=
  causal_masking attnP0 xZero xPerturbed 0 0 1 0 (by decide)
    (by
      intro b t ht c
      fin_cases t
      · simp [xZero, xPerturbed]
      · exact absurd rfl ht)

/-! ## Theorems: `GPT.forward` contract (claim C2) -/

theorem crossEntropyMean_nonneg {Bn Tn V : ℕ}
    (logits : Fin Bn → Fin Tn → Fin V → ℝ) (tg : Fin Bn → Fin Tn → Fin V) :
    0 ≤ crossEntropyMean logits tg := by
  apply div_nonneg
  · apply Finset.sum_nonneg
    intro b _
    apply Finset.sum_nonneg
    intro t _
    have hpos : (0 : ℝ) < ∑ v, Real.exp (logits b t v) :=
      Finset.sum_pos' (fun v _ => (Real.exp_pos _).le)
        ⟨tg b t, Finset.mem_univ _, Real.exp_pos _⟩
    have hle : Real.exp (logits b t (tg b t)) ≤ ∑ v, Real.exp (logits b t v) :=
      Finset.single_le_sum (fun v _ => (Real.exp_pos _).le) (Finset.mem_univ _)
    have hlog : logits b t (tg b t) ≤ Real.log (∑ v, Real.exp (logits b t v)) :=
      (Real.le_log_iff_exp_le hpos).mpr hle
    linarith
  · have h1 : (0 : ℝ) ≤ (Bn : ℝ) := Nat.cast_nonneg Bn
    have h2 : (0 : ℝ) ≤ (Tn : ℝ) := Nat.cast_nonneg Tn
    exact mul_nonneg h1 h2

/-- C2: `GPT.forward` fails with the length `assert` exactly when
`T > block_size`; otherwise it returns logits of shape `[B, T, vocab_size]`
(by the result type) together with — exactly when targets are supplied —
the loss, which equals the cross-entropy of the logits against the targets
averaged over all `B*T` flattened positions and is non-negative (and, being
a real number of the exact-arithmetic model, finite). -/
theorem gpt_forward_spec {bs V L nh hs Bn Tn : ℕ} (p : GPTParams bs V L nh hs)
    (idx : Fin Bn → Fin Tn → Fin V) (targets : Option (Fin Bn → Fin Tn → Fin V)) :
    ((gptForward p idx targets).isOk = true ↔ Tn ≤ bs) ∧
    (∀ hT : Tn ≤ bs,
      gptForward p idx targets = .ok (fun b => gptLogits p hT (idx b),
        targets.map (fun tg => crossEntropyMean (fun b => gptLogits p hT (idx b)) tg))) ∧
    (∀ (logits : Fin Bn → Fin Tn → Fin V → ℝ) (tg : Fin Bn → Fin Tn → Fin V),
      0 ≤ crossEntropyMean logits tg) := by
  refine ⟨?_, ?_, fun logits tg => crossEntropyMean_nonneg logits tg⟩
  · by_cases hT : Tn ≤ bs
    · simp [gptForward, hT, Except.isOk, Except.toBool]
    · simp [gptForward, hT, Except.isOk, Except.toBool]
  · intro hT
    simp [gptForward, hT]

/-- Witness for C2 on the concrete one-layer-free model `gptP0` with a
`[1, 1]` input and targets supplied: the forward pass succeeds and its
loss, the averaged cross-entropy, is non-negative. -/
theorem gpt_forward_spec_witness :
    gptForward gptP0 idx0 (some idx0) = .ok
      (fun b => gptLogits gptP0 (le_refl 1) (idx0 b),
        some (crossEntropyMean (fun b => gptLogits gptP0 (le_refl 1) (idx0 b)) idx0)) ∧
    0 ≤ crossEntropyMean (fun b => gptLogits gptP0 (le_refl 1) (idx0 b)) idx0 :=
  ⟨(gpt_forward_spec gptP0 idx0 (some idx0)).2.1 (le_refl 1),
   (gpt_forward_spec gptP0 idx0 (some idx0)).2.2 _ idx0⟩

end TrainGPT2
